import Mathlib

/-!
# Verification of the Vitya2D shape-navigation core (src/Vitya2D.py)

Shallow embedding of the pathfinding / footprint-validation engine of the
script `Vitya2D.py`:

* shape topologies (`get_dog_shape`, `get_snake_shape`, `get_line_shape`),
* the obstacle-compatibility predicate `is_blocked`,
* safety-margin inflation of obstacles (`expanded_after`),
* the full-body validity check `is_valid_position` (with Python's
  round-half-to-even semantics, `py_round`),
* the A* search `a_star` (exact-real edge costs `a + b*sqrt 2` and exact
  priorities `a + b*sqrt 2 + sqrt n`, replacing the script's floats;
  the unbounded `while frontier` loop is embedded with a fuel parameter,
  returning `none` on fuel exhaustion),
* the motion/ shape-switch state machine `update_positions` / `switch_shape`.

Python dicts are embedded as association lists looked up with `alookup`
(assignment conses a fresh binding, which has the same lookup semantics).
The snake shape's transcendental coordinate `5 + sin (i * 0.5)` is embedded
by parametrising over an arbitrary function `sinq : ℚ → ℚ`; no claim below
depends on its values.
-/

/-- A grid cell, Python's `(x, y)` tuple of ints. -/
abbrev Cell : Type := ℤ × ℤ

/-- A 2D float position, embedded exactly as a pair of rationals. -/
abbrev Q2 : Type := ℚ × ℚ

/-- The three obstacle classes of `obstacle_types` (colors are rendering-only). -/
inductive ObstacleType : Type where
  | highWall : ObstacleType
  | tunnelWall : ObstacleType
  | lowWall : ObstacleType
deriving DecidableEq

instance : Fintype ObstacleType :=
  ⟨⟨[ObstacleType.highWall, ObstacleType.tunnelWall, ObstacleType.lowWall], by decide⟩,
    fun x => by cases x <;> decide⟩

/-- The three topology kinds (`'type'` tags of the shape dictionaries). -/
inductive ShapeType : Type where
  | dog : ShapeType
  | snake : ShapeType
  | line : ShapeType
deriving DecidableEq

instance : Fintype ShapeType :=
  ⟨⟨[ShapeType.dog, ShapeType.snake, ShapeType.line], by decide⟩,
    fun x => by cases x <;> decide⟩

/-- A shape configuration dictionary: `positions`, `connections`, `center`, `type`. -/
structure Shape : Type where
  positions : List (ℕ × Q2)
  connections : List (ℕ × ℕ)
  center : ℕ
  type : ShapeType

/-- Lookup in an association list (Python `dict.get` / `d[k]`; `d[k] = v` is
embedded as consing `(k, v)`, which has the same lookup semantics). -/
def alookup {α β : Type} [DecidableEq α] : List (α × β) → α → Option β
  | [], _ => none
  | kv :: t, a => if kv.1 = a then some kv.2 else alookup t a

/-- `get_dog_shape()`. -/
def get_dog_shape : Shape :=
  { positions := [(1, (0, 2)), (2, (0, 1)), (3, (0, 0)), (4, (1, 1)), (5, (2, 2)),
      (6, (2, 1)), (7, (2, 0)), (8, (-(1/2), 2)), (9, (-(1/2), 0)),
      (10, (5/2, 2)), (11, (5/2, 0))],
    connections := [(1, 2), (2, 3), (2, 4), (4, 6), (5, 6), (6, 7),
      (1, 8), (3, 9), (5, 10), (7, 11)],
    center := 4,
    type := ShapeType.dog }

/-- `get_snake_shape()`; the float `np.sin(i * 0.5)` is embedded via the
parameter `sinq`. -/
def get_snake_shape (sinq : ℚ → ℚ) : Shape :=
  { positions := (List.range 12).map fun i : ℕ =>
      (i + 1, ((i : ℚ), 5 + sinq ((i : ℚ) * (1/2)))),
    connections := (List.range 11).map fun i : ℕ => (i + 1, i + 2),
    center := 12,
    type := ShapeType.snake }

/-- `get_line_shape()`. -/
def get_line_shape : Shape :=
  { positions := (List.range 12).map fun i : ℕ => (i + 1, ((i : ℚ), 5)),
    connections := (List.range 11).map fun i : ℕ => (i + 1, i + 2),
    center := 12,
    type := ShapeType.line }

/-- The global `safety_margin = 1`. -/
def safety_margin : ℤ := 1

/-- Bounds test `0 <= x < grid_size[0] and 0 <= y < grid_size[1]`. -/
def inBounds (grid : Cell) (c : Cell) : Bool :=
  decide (0 ≤ c.1 ∧ c.1 < grid.1 ∧ 0 ≤ c.2 ∧ c.2 < grid.2)

/-- The body of `is_blocked` after `otype = obstacles.get(cell)` has been read. -/
def blocked_for (otype : Option ObstacleType) (stype : ShapeType) : Bool :=
  if stype = ShapeType.line then otype.isSome
  else if otype = some ObstacleType.highWall then true
  else if stype = ShapeType.dog ∧ otype = some ObstacleType.tunnelWall then true
  else if stype = ShapeType.snake ∧ otype = some ObstacleType.lowWall then true
  else false

/-- `is_blocked(cell)` from `a_star` (the global `current_shape_type` is the
`stype` parameter). -/
def is_blocked (obstacles : List (Cell × ObstacleType)) (stype : ShapeType)
    (cell : Cell) : Bool :=
  blocked_for (alookup obstacles cell) stype

/-- The integers `-m, …, m` in order, i.e. Python's `range(-m, m + 1)`. -/
def irange (m : ℤ) : List ℤ :=
  (List.range (2 * m + 1).toNat).map fun i : ℕ => -m + (i : ℤ)

/-- The `(dx, dy)` pairs of the nested `for dx … for dy` scan, in loop order. -/
def box_offsets (m : ℤ) : List (ℤ × ℤ) :=
  (irange m).foldr (fun dx acc => ((irange m).map fun dy => (dx, dy)) ++ acc) []

/-- The in-bounds cells added for one blocking obstacle cell `o` (the inner
two loops of the inflation pass). -/
def inflate_cells (grid : Cell) (m : ℤ) (o : Cell) : List Cell :=
  (box_offsets m).filterMap fun d =>
    let n : Cell := (o.1 + d.1, o.2 + d.2)
    if inBounds grid n then some n else none

/-- The value of the global `expanded_obstacles` after a call of `a_star`:
`expanded_obstacles.clear()` (so the previous contents `prev` are discarded)
followed by the inflation loop over `obstacles`. -/
def expanded_after (prev : List Cell) (obstacles : List (Cell × ObstacleType))
    (stype : ShapeType) (grid : Cell) (m : ℤ) : List Cell :=
  obstacles.foldl
    (fun acc kv =>
      if is_blocked obstacles stype kv.1 then acc ++ inflate_cells grid m kv.1
      else acc)
    ([] : List Cell)

/-- Python's `round` on a float: round half to even (banker's rounding).
`int(round(x))` in the source is exactly this, since `round` already returns
an integral value. -/
def py_round (q : ℚ) : ℤ :=
  let f : ℤ := ⌊q⌋
  let r : ℚ := q - (f : ℚ)
  if r < 1/2 then f
  else if 1/2 < r then f + 1
  else if f % 2 = 0 then f else f + 1

/-- `int(round(·))` applied to both coordinates of a float position. -/
def round_cell (p : Q2) : Cell := (py_round p.1, py_round p.2)

/-- A grid cell as a float position (`np.array(neighbor, dtype=float)`). -/
def cellQ (c : Cell) : Q2 := ((c.1 : ℚ), (c.2 : ℚ))

/-- The rest position of the center anchor, `initial_positions[center_id]`
(the shapes of this program always contain their center; `getD` supplies a
dummy for ill-formed shapes, which the spec declares a fatal config error). -/
def center_rest (shape : Shape) : Q2 :=
  (alookup shape.positions shape.center).getD (0, 0)

/-- `relative_offsets` as computed inside `a_star`:
`initial_positions[k] - initial_positions[center_id]` for each anchor `k`,
in dict order. -/
def relative_offsets (shape : Shape) : List Q2 :=
  shape.positions.map fun kv =>
    (kv.2.1 - (center_rest shape).1, kv.2.2 - (center_rest shape).2)

/-- `is_valid_position(center)` from `a_star`: every anchor's rounded cell
must be in bounds and outside `expanded`. -/
def is_valid_position (offsets : List Q2) (expanded : List Cell) (grid : Cell)
    (center : Q2) : Bool :=
  offsets.all fun off =>
    let cpos : Cell := round_cell (center.1 + off.1, center.2 + off.2)
    inBounds grid cpos && decide (cpos ∉ expanded)

-- The motion controller and the shape-switch state machine.

/-- The mutable globals of the script that the motion controller touches. -/
structure SysState : Type where
  initial_positions : List (ℕ × Q2)
  connections : List (ℕ × ℕ)
  center_id : ℕ
  current_shape_type : ShapeType
  positions : List (ℕ × Q2)
  path : List Cell
  step_index : ℕ
  obstacles : List (Cell × ObstacleType)

/-- `switch_shape(new_shape)`: replaces the active topology wholesale and
resets `positions` to the new shape's initial layout (the rendering-only
`lines` global is omitted). -/
def switch_shape (st : SysState) (sh : Shape) : SysState :=
  { st with
    initial_positions := sh.positions,
    connections := sh.connections,
    center_id := sh.center,
    current_shape_type := sh.type,
    positions := sh.positions }

/-- Python `int()` on a float: truncation toward zero. -/
def py_int (q : ℚ) : ℤ := if q < 0 then ⌈q⌉ else ⌊q⌋

/-- `initial_positions[k] - initial_positions[center_id]` as computed in
`update_positions`. -/
def anchor_offset (init : List (ℕ × Q2)) (cid k : ℕ) : Q2 :=
  let p := (alookup init k).getD (0, 0)
  let c := (alookup init cid).getD (0, 0)
  (p.1 - c.1, p.2 - c.2)

/-- The anchor positions after the rigid move `positions[k] = next_pos +
offset` (iterating over the keys of `positions`; the dead local `delta` of
the source is skipped). -/
def moved_positions (st : SysState) (next : Cell) : List (ℕ × Q2) :=
  st.positions.map fun kv =>
    (kv.1, ((next.1 : ℚ) + (anchor_offset st.initial_positions st.center_id kv.1).1,
            (next.2 : ℚ) + (anchor_offset st.initial_positions st.center_id kv.1).2))

/-- The nested `for dx … for dy` obstacle scan of `update_positions`, with
its early `return` on the first matching obstacle. -/
def scan_switch (sinq : ℚ → ℚ) (st : SysState) (cx cy : ℤ) :
    List (ℤ × ℤ) → SysState
  | [] => st
  | d :: rest =>
    match alookup st.obstacles (cx + d.1, cy + d.2) with
    | some ObstacleType.tunnelWall =>
      if st.current_shape_type ≠ ShapeType.snake then
        switch_shape st (get_snake_shape sinq)
      else scan_switch sinq st cx cy rest
    | some ObstacleType.lowWall =>
      if st.current_shape_type ≠ ShapeType.dog then
        switch_shape st get_dog_shape
      else scan_switch sinq st cx cy rest
    | _ => scan_switch sinq st cx cy rest

/-- `update_positions()`: no-op when no path step remains; otherwise move all
anchors rigidly to `path[step_index]` and scan the margin box around the new
center cell, switching topology on the first matching obstacle. -/
def update_positions (sinq : ℚ → ℚ) (st : SysState) : SysState :=
  if st.path = [] ∨ st.path.length ≤ st.step_index then st
  else
    let next := st.path.getD st.step_index (0, 0)
    let st1 : SysState :=
      { st with
        step_index := st.step_index + 1,
        positions := moved_positions st next }
    let cpos := (alookup st1.positions st1.center_id).getD (0, 0)
    scan_switch sinq st1 (py_int cpos.1) (py_int cpos.2)
      (box_offsets safety_margin)

/-- The switch policy of §4.5, read off the `update_positions` conditionals:
Tunnel Wall demands kind snake, Low Wall demands kind dog, High Wall names
no kind. -/
def switch_policy : ObstacleType → Option ShapeType
  | ObstacleType.highWall => none
  | ObstacleType.tunnelWall => some ShapeType.snake
  | ObstacleType.lowWall => some ShapeType.dog

/-- The shape constructor the motion controller invokes for a demanded kind. -/
def shape_of_kind (sinq : ℚ → ℚ) : ShapeType → Shape
  | ShapeType.dog => get_dog_shape
  | ShapeType.snake => get_snake_shape sinq
  | ShapeType.line => get_line_shape

/-- The first obstacle in scan order (around cell `c`) whose switch policy
names a kind different from the active one, if any. -/
def first_switch_hit (obstacles : List (Cell × ObstacleType))
    (active : ShapeType) (c : Cell) (m : ℤ) : Option ShapeType :=
  (box_offsets m).findSome? fun d =>
    match alookup obstacles (c.1 + d.1, c.2 + d.2) with
    | none => none
    | some t =>
      match switch_policy t with
      | none => none
      | some k => if k = active then none else some k

/-- The initial global state of the script: the dog shape at rest, no path,
no obstacles. -/
def init_state : SysState :=
  { initial_positions := get_dog_shape.positions,
    connections := get_dog_shape.connections,
    center_id := get_dog_shape.center,
    current_shape_type := get_dog_shape.type,
    positions := get_dog_shape.positions,
    path := [],
    step_index := 0,
    obstacles := [] }

/-- A fixed interpretation of the snake's sine coordinate, used only to build
concrete witness states. -/
def sinq0 : ℚ → ℚ := fun _ => 0

/-- A one-step scenario: the active topology has kind `k`, the path's next
cell is `(5, 5)`, and a single obstacle of class `c` sits exactly there (so
the post-move margin scan finds it). -/
def demo_state (c : ObstacleType) (k : ShapeType) : SysState :=
  { initial_positions := (shape_of_kind sinq0 k).positions,
    connections := (shape_of_kind sinq0 k).connections,
    center_id := (shape_of_kind sinq0 k).center,
    current_shape_type := (shape_of_kind sinq0 k).type,
    positions := (shape_of_kind sinq0 k).positions,
    path := [(5, 5)],
    step_index := 0,
    obstacles := [((5, 5), c)] }

-- The A* search, with exact real arithmetic replacing the script's floats.

/-- An exact edge-cost value `a + b * sqrt 2`, as accumulated by
`cost_so_far` from unit moves (cost 1) and diagonal moves (cost `sqrt 2`). -/
abbrev Cost : Type := ℕ × ℕ

/-- An exact frontier priority `a + b * sqrt 2 + sqrt n`: a cost plus the
Euclidean heuristic `sqrt n`, with `n` the squared distance to the goal. -/
abbrev Pri : Type := Cost × ℕ

/-- Sign (`-1`, `0` or `1`) of the real number `p + q * sqrt 2`. -/
def s2_sign (p q : ℤ) : ℤ :=
  if 0 ≤ p then
    (if 0 ≤ q then (if p = 0 ∧ q = 0 then 0 else 1)
     else (if 2 * q ^ 2 < p ^ 2 then 1 else -1))
  else
    (if q ≤ 0 then -1
     else (if p ^ 2 < 2 * q ^ 2 then 1 else -1))

/-- Sign of `(p + q * sqrt 2) + b * sqrt s` for naturals `b`, `s`. -/
def s2_plus_sqrt_sign (p q : ℤ) (b s : ℕ) : ℤ :=
  if b = 0 ∨ s = 0 then s2_sign p q
  else if 0 ≤ s2_sign p q then 1
  else s2_sign ((b : ℤ) ^ 2 * (s : ℤ) - p ^ 2 - 2 * q ^ 2) (-(2 * p * q))

/-- Sign of `(c + d * sqrt 2 + sqrt m) - (a + b * sqrt 2 + sqrt n)` for
priorities `x = ((a, b), n)` and `y = ((c, d), m)`: `1` exactly when `x`'s
real value is strictly below `y`'s. -/
def pri_diff_sign (x y : Pri) : ℤ :=
  let p : ℤ := (y.1.1 : ℤ) - (x.1.1 : ℤ)
  let q : ℤ := (y.1.2 : ℤ) - (x.1.2 : ℤ)
  let n : ℕ := x.2
  let m : ℕ := y.2
  if n = m then s2_sign p q
  else if n < m then
    (if 0 ≤ s2_sign p q then 1
     else -s2_plus_sqrt_sign (p ^ 2 + 2 * q ^ 2 - (m : ℤ) - (n : ℤ)) (2 * p * q)
        2 (m * n))
  else
    (if s2_sign p q ≤ 0 then -1
     else s2_plus_sqrt_sign (p ^ 2 + 2 * q ^ 2 - (n : ℤ) - (m : ℤ)) (2 * p * q)
        2 (n * m))

/-- Python's tuple comparison `(priority, cell) < (priority', cell')` on
frontier entries: exact priority order first, then lexicographic cell order. -/
def entry_lt (x y : Pri × Cell) : Bool :=
  if pri_diff_sign x.1 y.1 = 1 then true
  else if pri_diff_sign x.1 y.1 = 0 then
    decide (x.2.1 < y.2.1 ∨ (x.2.1 = y.2.1 ∧ x.2.2 < y.2.2))
  else false

/-- `new_cost < cost_so_far[neighbor]`: exact comparison of two values
`a + b * sqrt 2`. -/
def cost_lt (x y : Cost) : Bool :=
  decide (s2_sign ((y.1 : ℤ) - (x.1 : ℤ)) ((y.2 : ℤ) - (x.2 : ℤ)) = 1)

/-- `np.hypot(dx, dy)` over the eight king moves: `1` or `sqrt 2`. -/
def move_cost (d : ℤ × ℤ) : Cost := if d.1 = 0 ∨ d.2 = 0 then (1, 0) else (0, 1)

def cost_add (x y : Cost) : Cost := (x.1 + y.1, x.2 + y.2)

/-- The squared Euclidean distance between two cells; `heuristic(a, b)` is
its square root. -/
def heuristic_sq (a b : Cell) : ℕ := ((a.1 - b.1) ^ 2 + (a.2 - b.2) ^ 2).toNat

/-- The eight neighbor directions of `a_star`, in source order. -/
def directions : List (ℤ × ℤ) :=
  [(-1, 0), (1, 0), (0, -1), (0, 1), (-1, -1), (-1, 1), (1, -1), (1, 1)]

/-- The transient search state: the priority queue and the `came_from` and
`cost_so_far` dicts. -/
structure AState : Type where
  frontier : List (Pri × Cell)
  came_from : List (Cell × Option Cell)
  cost_so_far : List (Cell × Cost)

/-- One iteration of the inner `for dx, dy in directions` loop: bounds check,
full-body validity check, cost comparison, push and dict updates. -/
def relax (goal grid : Cell) (offsets : List Q2) (expanded : List Cell)
    (current : Cell) (ccost : Cost) (s : AState) (d : ℤ × ℤ) : AState :=
  let neighbor : Cell := (current.1 + d.1, current.2 + d.2)
  if inBounds grid neighbor then
    if is_valid_position offsets expanded grid (cellQ neighbor) then
      let new_cost := cost_add ccost (move_cost d)
      let better : Bool :=
        match alookup s.cost_so_far neighbor with
        | none => true
        | some old => cost_lt new_cost old
      if better then
        { frontier := ((new_cost, heuristic_sq goal neighbor), neighbor) :: s.frontier,
          came_from := (neighbor, some current) :: s.came_from,
          cost_so_far := (neighbor, new_cost) :: s.cost_so_far }
      else s
    else s
  else s

/-- The earliest minimal element of a list under `lt`. Tied frontier entries
are equal as values (the priority order is total), so which one `heapq`
returns is immaterial: the popped value and remaining multiset agree. -/
def list_min {α : Type} (lt : α → α → Bool) : List α → Option α
  | [] => none
  | h :: t => some (t.foldl (fun acc x => if lt x acc then x else acc) h)

def erase_first {α : Type} [DecidableEq α] : List α → α → List α
  | [], _ => []
  | h :: t, a => if h = a then t else h :: erase_first t a

/-- `heapq.heappop`: remove and return a minimal frontier entry. -/
def pop_min (l : List (Pri × Cell)) :
    Option ((Pri × Cell) × List (Pri × Cell)) :=
  match list_min entry_lt l with
  | none => none
  | some m => some (m, erase_first l m)

/-- The `while frontier:` loop of `a_star`: pop, stop on goal, otherwise
expand the eight neighbors. The fuel makes the unbounded loop structurally
recursive; `none` means the fuel ran out before the loop finished. -/
def a_star_loop (goal grid : Cell) (offsets : List Q2) (expanded : List Cell) :
    ℕ → AState → Option AState
  | 0, s => if s.frontier.isEmpty then some s else none
  | Nat.succ fuel, s =>
    match pop_min s.frontier with
    | none => some s
    | some (e, rest) =>
      if e.2 = goal then some { s with frontier := rest }
      else
        a_star_loop goal grid offsets expanded fuel
          (directions.foldl
            (relax goal grid offsets expanded e.2
              ((alookup s.cost_so_far e.2).getD (0, 0)))
            { s with frontier := rest })

/-- The reconstruction loop `while curr and curr in came_from: path.append;
curr = came_from[curr]`, accumulating in reverse so the final list is already
in start-to-goal order (the source appends and then reverses). `none` on fuel
exhaustion. -/
def walk (cf : List (Cell × Option Cell)) :
    ℕ → Option Cell → List Cell → Option (List Cell)
  | _, none, acc => some acc
  | 0, some c, acc =>
    (match alookup cf c with
     | none => some acc
     | some _ => none)
  | Nat.succ fuel, some c, acc =>
    (match alookup cf c with
     | none => some acc
     | some parent => walk cf fuel parent (c :: acc))

/-- `a_star(start, goal, obstacles, grid_size)`. The globals it reads —
`current_shape_type`, `initial_positions`, `center_id` (bundled as `shape`),
`safety_margin`, and the cleared-and-rebuilt `expanded_obstacles` — are made
explicit; `fuel` bounds the two unbounded loops. -/
def a_star (fuel : ℕ) (start goal : Cell)
    (obstacles : List (Cell × ObstacleType)) (grid : Cell) (shape : Shape) :
    Option (List Cell) :=
  let expanded := expanded_after [] obstacles shape.type grid safety_margin
  let offsets := relative_offsets shape
  let s0 : AState :=
    { frontier := [(((0, 0), 0), start)],
      came_from := [(start, none)],
      cost_so_far := [(start, (0, 0))] }
  match a_star_loop goal grid offsets expanded fuel s0 with
  | none => none
  | some s1 => walk s1.came_from fuel (some goal) []

-- Search invariants.

/-- Reachability in the sense of the spec's "goal is reachable": a chain of
unit/diagonal moves from `start` (whose own footprint is not required to be
valid) through cells that are in bounds and pass the full-body check. -/
inductive Reach (grid : Cell) (offsets : List Q2) (expanded : List Cell)
    (start : Cell) : Cell → Prop where
  | refl : Reach grid offsets expanded start start
  | step (c : Cell) (d : ℤ × ℤ) :
      Reach grid offsets expanded start c → d ∈ directions →
      inBounds grid (c.1 + d.1, c.2 + d.2) = true →
      is_valid_position offsets expanded grid (cellQ (c.1 + d.1, c.2 + d.2)) = true →
      Reach grid offsets expanded start (c.1 + d.1, c.2 + d.2)

/-- `c` is a key of `came_from` (equivalently of `cost_so_far`). -/
def cf_keyed (s : AState) (c : Cell) : Prop :=
  (alookup s.came_from c).isSome = true

/-- Some frontier entry is for cell `c`. -/
def in_frontier (s : AState) (c : Cell) : Prop :=
  ∃ e, e ∈ s.frontier ∧ e.2 = c

/-- All valid in-bounds neighbors of `c` are already discovered. -/
def expanded_at (grid : Cell) (offsets : List Q2) (expanded : List Cell)
    (s : AState) (c : Cell) : Prop :=
  ∀ d, d ∈ directions → inBounds grid (c.1 + d.1, c.2 + d.2) = true →
    is_valid_position offsets expanded grid (cellQ (c.1 + d.1, c.2 + d.2)) = true →
    cf_keyed s (c.1 + d.1, c.2 + d.2)

/-- The search-loop invariant on `came_from` / `cost_so_far` / `frontier`. -/
structure InvCore (start grid : Cell) (offsets : List Q2) (expanded : List Cell)
    (s : AState) : Prop where
  cf_start : alookup s.came_from start = some none
  cf_step : ∀ c p, alookup s.came_from c = some (some p) →
      cf_keyed s p ∧ (c.1 - p.1, c.2 - p.2) ∈ directions ∧
      inBounds grid c = true ∧
      is_valid_position offsets expanded grid (cellQ c) = true
  cf_none : ∀ c q, alookup s.came_from c = some q → q = none → c = start
  cost_keys : ∀ c, (alookup s.cost_so_far c).isSome = true ↔ cf_keyed s c
  cost_start : alookup s.cost_so_far start = some (0, 0)
  front_keys : ∀ e, e ∈ s.frontier → cf_keyed s e.2
  reach : ∀ c, cf_keyed s c → Reach grid offsets expanded start c

/-- Every discovered cell except possibly `cur` has a frontier entry or is
fully expanded. -/
def ClosedExcept (grid : Cell) (offsets : List Q2) (expanded : List Cell)
    (s : AState) (cur : Cell) : Prop :=
  ∀ c, cf_keyed s c → c ≠ cur →
    in_frontier s c ∨ expanded_at grid offsets expanded s c

/-- Every discovered cell has a frontier entry or is fully expanded. -/
def Closed (grid : Cell) (offsets : List Q2) (expanded : List Cell)
    (s : AState) : Prop :=
  ∀ c, cf_keyed s c →
    in_frontier s c ∨ expanded_at grid offsets expanded s c

/-- The Euclidean-weighted length of a path: 1 per axis move, `sqrt 2` per
diagonal move, as the exact value `(a, b)` standing for `a + b * sqrt 2`. -/
def path_cost : List Cell → Cost
  | [] => (0, 0)
  | [_] => (0, 0)
  | a :: b :: t => cost_add (move_cost (b.1 - a.1, b.2 - a.2))
      (path_cost (b :: t))

/-- Modelled from the spec: the "8-connected shortest-path distance
(Euclidean-weighted)" between two cells of an unobstructed grid —
`max - min` axis moves plus `min` diagonal moves over the absolute
coordinate differences, as the exact value `(a, b)` = `a + b * sqrt 2`. -/
def spec_dist8 (s g : Cell) : Cost :=
  let dx := (s.1 - g.1).natAbs
  let dy := (s.2 - g.2).natAbs
  (max dx dy - min dx dy, min dx dy)

-- C4: the blocking predicate table.

/-- C4. The blocking predicate is total over (obstacle class, topology kind)
and `is_blocked` returns `true` exactly when: the kind is `line` and the cell
holds any obstacle; or the cell holds High Wall; or the kind is `dog` and the
cell holds Tunnel Wall; or the kind is `snake` and the cell holds Low Wall.
A cell with no obstacle never blocks. -/
theorem is_blocked_table (obstacles : List (Cell × ObstacleType))
    (stype : ShapeType) (cell : Cell) :
    is_blocked obstacles stype cell = true ↔
      ((stype = ShapeType.line ∧ (alookup obstacles cell).isSome = true) ∨
        alookup obstacles cell = some ObstacleType.highWall ∨
        (stype = ShapeType.dog ∧ alookup obstacles cell = some ObstacleType.tunnelWall) ∨
        (stype = ShapeType.snake ∧ alookup obstacles cell = some ObstacleType.lowWall)) := by
  unfold is_blocked
  generalize alookup obstacles cell = ot
  cases ot with
  | none => cases stype <;> simp [blocked_for]
  | some t => cases t <;> cases stype <;> simp [blocked_for]

-- Membership characterisations of the inflation pass (for C5).

theorem mem_irange (m x : ℤ) : x ∈ irange m ↔ -m ≤ x ∧ x ≤ m := by
  unfold irange
  constructor
  · intro hx
    rcases List.mem_map.mp hx with ⟨i, hi, rfl⟩
    rw [List.mem_range] at hi
    exact ⟨by omega, by omega⟩
  · rintro ⟨h1, h2⟩
    exact List.mem_map.mpr ⟨(x + m).toNat, List.mem_range.mpr (by omega), by omega⟩

theorem mem_box_offsets (m : ℤ) (d : ℤ × ℤ) :
    d ∈ box_offsets m ↔ -m ≤ d.1 ∧ d.1 ≤ m ∧ -m ≤ d.2 ∧ d.2 ≤ m := by
  unfold box_offsets
  have key : ∀ (l : List ℤ),
      (d ∈ l.foldr (fun dx acc => ((irange m).map fun dy => (dx, dy)) ++ acc) [] ↔
        d.1 ∈ l ∧ d.2 ∈ irange m) := by
    intro l
    induction l with
    | nil => simp
    | cons h t ih =>
      simp only [List.foldr_cons, List.mem_append, List.mem_map, List.mem_cons, ih]
      constructor
      · rintro (⟨dy, hdy, rfl⟩ | ⟨h1, h2⟩)
        · exact ⟨Or.inl rfl, hdy⟩
        · exact ⟨Or.inr h1, h2⟩
      · rintro ⟨h1 | h1, h2⟩
        · exact Or.inl ⟨d.2, h2, by rw [← h1]⟩
        · exact Or.inr ⟨h1, h2⟩
  rw [key, mem_irange, mem_irange]
  tauto

theorem mem_inflate_cells (grid : Cell) (m : ℤ) (o c : Cell) :
    c ∈ inflate_cells grid m o ↔
      inBounds grid c = true ∧ |c.1 - o.1| ≤ m ∧ |c.2 - o.2| ≤ m := by
  unfold inflate_cells
  simp only [List.mem_filterMap]
  constructor
  · rintro ⟨d, hd, hc⟩
    rw [mem_box_offsets] at hd
    by_cases hb : inBounds grid (o.1 + d.1, o.2 + d.2) = true
    · simp only [hb, if_true] at hc
      cases hc
      refine ⟨hb, ?_, ?_⟩ <;> rw [abs_le] <;> constructor <;> simp <;> omega
    · simp only [hb] at hc
      simp at hc
  · rintro ⟨hb, h1, h2⟩
    rw [abs_le] at h1 h2
    refine ⟨(c.1 - o.1, c.2 - o.2), ?_, ?_⟩
    · rw [mem_box_offsets]
      refine ⟨by omega, by omega, by omega, by omega⟩
    · have : (o.1 + (c.1 - o.1), o.2 + (c.2 - o.2)) = c := by
        cases c; simp
      rw [this, hb]
      simp

theorem mem_expand_foldl (obstacles l : List (Cell × ObstacleType))
    (stype : ShapeType) (grid : Cell) (m : ℤ) (acc : List Cell) (c : Cell) :
    (c ∈ l.foldl
        (fun acc kv =>
          if is_blocked obstacles stype kv.1 then acc ++ inflate_cells grid m kv.1
          else acc) acc) ↔
      c ∈ acc ∨ ∃ kv ∈ l, is_blocked obstacles stype kv.1 = true ∧
        c ∈ inflate_cells grid m kv.1 := by
  induction l generalizing acc with
  | nil => simp
  | cons h t ih =>
    simp only [List.foldl_cons]
    by_cases hb : is_blocked obstacles stype h.1 = true
    · rw [if_pos hb, ih]
      simp only [List.mem_append, List.mem_cons]
      constructor
      · rintro ((h1 | h1) | ⟨kv, hkv, hkb, hkc⟩)
        · exact Or.inl h1
        · exact Or.inr ⟨h, Or.inl rfl, hb, h1⟩
        · exact Or.inr ⟨kv, Or.inr hkv, hkb, hkc⟩
      · rintro (h1 | ⟨kv, hkv | hkv, hkb, hkc⟩)
        · exact Or.inl (Or.inl h1)
        · subst hkv; exact Or.inl (Or.inr hkc)
        · exact Or.inr ⟨kv, hkv, hkb, hkc⟩
    · rw [if_neg hb, ih]
      simp only [List.mem_cons]
      constructor
      · rintro (h1 | ⟨kv, hkv, hkb, hkc⟩)
        · exact Or.inl h1
        · exact Or.inr ⟨kv, Or.inr hkv, hkb, hkc⟩
      · rintro (h1 | ⟨kv, hkv | hkv, hkb, hkc⟩)
        · exact Or.inl h1
        · subst hkv; exact absurd hkb hb
        · exact Or.inr ⟨kv, hkv, hkb, hkc⟩

/-- C5. The inflated obstacle set is rebuilt from scratch on every planning
call — the previous contents `prev` are cleared and do not influence the
result — and afterwards a cell is in it exactly when it is in bounds and
within Chebyshev distance `m` (the inclusive `(2m+1)`-sided box) of some
obstacle cell whose class is blocking under the active topology kind.
Non-blocking obstacle cells contribute nothing. -/
theorem expanded_after_spec (prev : List Cell)
    (obstacles : List (Cell × ObstacleType)) (stype : ShapeType) (grid : Cell)
    (m : ℤ) (c : Cell) :
    c ∈ expanded_after prev obstacles stype grid m ↔
      inBounds grid c = true ∧ ∃ o t, (o, t) ∈ obstacles ∧
        is_blocked obstacles stype o = true ∧
        max |c.1 - o.1| |c.2 - o.2| ≤ m := by
  unfold expanded_after
  rw [mem_expand_foldl]
  simp only [List.not_mem_nil, false_or]
  constructor
  · rintro ⟨kv, hkv, hkb, hkc⟩
    rw [mem_inflate_cells] at hkc
    exact ⟨hkc.1, kv.1, kv.2, by simpa using hkv, hkb,
      max_le hkc.2.1 hkc.2.2⟩
  · rintro ⟨hb, o, t, hmem, hblk, hcheb⟩
    rw [max_le_iff] at hcheb
    refine ⟨(o, t), hmem, hblk, ?_⟩
    rw [mem_inflate_cells]
    exact ⟨hb, hcheb.1, hcheb.2⟩

/-- C6. `is_valid_position` (the source's `is_valid_center`) accepts a
candidate float center exactly when, for every anchor of the active topology,
rounding each coordinate of `center + offset(anchor)` to the nearest integer
(Python's round-half-to-even) yields a cell that is inside grid bounds and
not in the inflated set; a single failing anchor invalidates the whole
candidate position. -/
theorem is_valid_position_iff (shape : Shape) (expanded : List Cell)
    (grid : Cell) (center : Q2) :
    is_valid_position (relative_offsets shape) expanded grid center = true ↔
      ∀ a p, (a, p) ∈ shape.positions →
        (inBounds grid (round_cell (center.1 + (p.1 - (center_rest shape).1),
            center.2 + (p.2 - (center_rest shape).2))) = true ∧
          round_cell (center.1 + (p.1 - (center_rest shape).1),
            center.2 + (p.2 - (center_rest shape).2)) ∉ expanded) := by
  unfold is_valid_position relative_offsets
  rw [List.all_eq_true]
  constructor
  · intro h a p hap
    have := h ((p.1 - (center_rest shape).1, p.2 - (center_rest shape).2))
      (List.mem_map.mpr ⟨(a, p), hap, rfl⟩)
    simpa using this
  · intro h off hoff
    rcases List.mem_map.mp hoff with ⟨kv, hkv, rfl⟩
    have := h kv.1 kv.2 hkv
    simpa using this

theorem scan_switch_eq_first_hit (sinq : ℚ → ℚ) (st : SysState) (cx cy : ℤ)
    (ds : List (ℤ × ℤ)) :
    scan_switch sinq st cx cy ds =
      match ds.findSome? (fun d =>
        match alookup st.obstacles (cx + d.1, cy + d.2) with
        | none => none
        | some t =>
          match switch_policy t with
          | none => none
          | some k => if k = st.current_shape_type then none else some k) with
      | none => st
      | some k => switch_shape st (shape_of_kind sinq k) := by
  induction ds with
  | nil => rfl
  | cons d rest ih =>
    rw [scan_switch, List.findSome?_cons]
    rcases hlk : alookup st.obstacles (cx + d.1, cy + d.2) with _ | t
    · simpa using ih
    · cases t with
      | highWall => simpa [switch_policy] using ih
      | tunnelWall =>
        by_cases hs : st.current_shape_type = ShapeType.snake
        · simp only [switch_policy, hs, if_pos rfl, ite_not]
          simpa [hs] using ih
        · simp [switch_policy, Ne.symm hs, hs, shape_of_kind]
      | lowWall =>
        by_cases hs : st.current_shape_type = ShapeType.dog
        · simp only [switch_policy, hs, if_pos rfl, ite_not]
          simpa [hs] using ih
        · simp [switch_policy, Ne.symm hs, hs, shape_of_kind]

theorem alookup_map_apply {β γ : Type} (l : List (ℕ × β)) (g : ℕ → γ) (k : ℕ)
    (h : (alookup l k).isSome = true) :
    alookup (l.map fun kv => (kv.1, g kv.1)) k = some (g k) := by
  induction l with
  | nil => simp [alookup] at h
  | cons kv t ih =>
    by_cases hk : kv.1 = k
    · subst hk
      simp [alookup]
    · rw [alookup, if_neg hk] at h
      rw [List.map_cons, alookup, if_neg hk]
      exact ih h

theorem anchor_offset_center (init : List (ℕ × Q2)) (cid : ℕ) :
    anchor_offset init cid cid = (0, 0) := by
  simp [anchor_offset]

theorem py_int_intCast (n : ℤ) : py_int ((n : ℚ)) = n := by
  unfold py_int
  split <;> simp

theorem alookup_moved_center (st : SysState) (next : Cell)
    (h : (alookup st.positions st.center_id).isSome = true) :
    alookup (moved_positions st next) st.center_id =
      some ((next.1 : ℚ), (next.2 : ℚ)) := by
  have h2 : alookup (moved_positions st next) st.center_id =
      some (((next.1 : ℚ) + (anchor_offset st.initial_positions st.center_id st.center_id).1,
        (next.2 : ℚ) + (anchor_offset st.initial_positions st.center_id st.center_id).2) : Q2) :=
    alookup_map_apply st.positions
      (fun k : ℕ =>
        (((next.1 : ℚ) + (anchor_offset st.initial_positions st.center_id k).1,
          (next.2 : ℚ) + (anchor_offset st.initial_positions st.center_id k).2) : Q2))
      st.center_id h
  rw [h2, anchor_offset_center]
  simp

/-- C8. After moving to the next path cell, `update_positions` scans the
`(2*margin+1)`-sided box of cells around the new center cell in the obstacle
field, in loop order; on the first obstacle found whose switch policy names a
kind different from the active one (Tunnel Wall demands snake, Low Wall
demands dog, High Wall names no kind) it performs the topology switch and
returns immediately, abandoning the rest of the scan; if no such obstacle is
found the active topology is unchanged. -/
theorem update_positions_switch_spec (sinq : ℚ → ℚ) (st : SysState)
    (hne : st.path ≠ []) (hidx : st.step_index < st.path.length)
    (hctr : (alookup st.positions st.center_id).isSome = true) :
    update_positions sinq st =
      (let next := st.path.getD st.step_index (0, 0)
       let moved : SysState :=
         { st with
           step_index := st.step_index + 1,
           positions := moved_positions st next }
       match first_switch_hit st.obstacles st.current_shape_type next
           safety_margin with
       | none => moved
       | some k => switch_shape moved (shape_of_kind sinq k)) := by
  have hguard : ¬(st.path = [] ∨ st.path.length ≤ st.step_index) := by
    push_neg
    exact ⟨hne, hidx⟩
  unfold update_positions
  rw [if_neg hguard]
  dsimp only
  rw [alookup_moved_center st (st.path.getD st.step_index (0, 0)) hctr]
  dsimp only [Option.getD_some]
  rw [py_int_intCast, py_int_intCast, scan_switch_eq_first_hit]
  rfl

/-- C1 counterexample: switching from the dog shape (center anchor at
`(1, 1)`) to the line shape puts the center anchor at the line shape's rest
center `(11, 5)`, not at the previous center position `(1, 1)` as the claim
requires (the center's offset in the new topology is zero, so the claim
demands it stay put). -/
theorem switch_shape_center_jumps :
    alookup init_state.positions init_state.center_id = some ((1 : ℚ), (1 : ℚ)) ∧
    alookup (switch_shape init_state get_line_shape).positions
      (switch_shape init_state get_line_shape).center_id =
        some ((11 : ℚ), (5 : ℚ)) ∧
    ((((11 : ℚ), (5 : ℚ)) : Q2) = (((1 : ℚ), (1 : ℚ)) : Q2) → False) := by
  refine ⟨by decide, by decide, by decide⟩

/-- C1 amended: a topology switch (host-requested or internal) replaces the
active topology wholesale and resets every anchor's position to the new
shape's own rest layout; positions are not re-anchored at the previous
center. -/
theorem switch_shape_resets_to_rest (st : SysState) (sh : Shape) :
    (switch_shape st sh).positions = sh.positions ∧
    (switch_shape st sh).initial_positions = sh.positions ∧
    (switch_shape st sh).center_id = sh.center ∧
    (switch_shape st sh).current_shape_type = sh.type ∧
    (switch_shape st sh).connections = sh.connections ∧
    (switch_shape st sh).path = st.path ∧
    (switch_shape st sh).obstacles = st.obstacles :=
  ⟨rfl, rfl, rfl, rfl, rfl, rfl, rfl⟩

theorem scan_switch_single_class (sinq : ℚ → ℚ) (st : SysState) (cx cy : ℤ)
    (c : ObstacleType)
    (hobs : ∀ cell t, alookup st.obstacles cell = some t → t = c)
    (hnb : blocked_for (some c) st.current_shape_type = false) :
    ∀ ds, scan_switch sinq st cx cy ds = st := by
  intro ds
  induction ds with
  | nil => rfl
  | cons d rest ih =>
    rw [scan_switch]
    rcases hlk : alookup st.obstacles (cx + d.1, cy + d.2) with _ | t
    · exact ih
    · have hc := hobs _ _ hlk
      subst hc
      cases t with
      | highWall => exact ih
      | tunnelWall =>
        have hs : st.current_shape_type = ShapeType.snake := by
          revert hnb
          generalize st.current_shape_type = k
          cases k <;> decide
        show (if st.current_shape_type ≠ ShapeType.snake then
            switch_shape st (get_snake_shape sinq)
          else scan_switch sinq st cx cy rest) = st
        rw [if_neg (fun hne2 => hne2 hs)]
        exact ih
      | lowWall =>
        have hs : st.current_shape_type = ShapeType.dog := by
          revert hnb
          generalize st.current_shape_type = k
          cases k <;> decide
        show (if st.current_shape_type ≠ ShapeType.dog then
            switch_shape st get_dog_shape
          else scan_switch sinq st cx cy rest) = st
        rw [if_neg (fun hne2 => hne2 hs)]
        exact ih

/-- C9 counterexample: there is no (obstacle class, active kind) pair that is
non-blocking for that kind yet has `update_positions` switch the active
topology on proximity: checked over all nine pairs with a single obstacle of
the class placed on the scanned center cell. -/
theorem no_nonblocking_switch_pair :
    ¬ ∃ (c : ObstacleType) (k : ShapeType),
      is_blocked [(((0 : ℤ), (0 : ℤ)), c)] k (0, 0) = false ∧
      ¬(update_positions sinq0 (demo_state c k)).current_shape_type = k := by
  with_unfolding_all decide

/-- C9 amended: whenever proximity during `update_positions` changes the
active topology, the obstacle's class also blocks the previously active kind
(first conjunct: if every obstacle in the field has a class that is
non-blocking for the active kind, a step never changes the kind). Blocking
and switching are independently observable only in the other direction:
High Wall blocks the dog kind yet a step next to it never switches (second
conjunct). -/
theorem switch_requires_blocking :
    (∀ (sinq : ℚ → ℚ) (st : SysState) (c : ObstacleType),
      (∀ cell t, alookup st.obstacles cell = some t → t = c) →
      is_blocked [(((0 : ℤ), (0 : ℤ)), c)] st.current_shape_type (0, 0) = false →
      (update_positions sinq st).current_shape_type = st.current_shape_type) ∧
    (is_blocked [(((0 : ℤ), (0 : ℤ)), ObstacleType.highWall)] ShapeType.dog
        (0, 0) = true ∧
      (update_positions sinq0
        (demo_state ObstacleType.highWall ShapeType.dog)).current_shape_type =
        ShapeType.dog) := by
  constructor
  · intro sinq st c hobs hnb
    have hnb' : blocked_for (some c) st.current_shape_type = false := by
      simpa [is_blocked, alookup] using hnb
    unfold update_positions
    split
    · rfl
    · dsimp only
      rw [scan_switch_single_class sinq
        { st with
          step_index := st.step_index + 1,
          positions := moved_positions st (st.path.getD st.step_index (0, 0)) }
        (py_int ((alookup (moved_positions st (st.path.getD st.step_index (0, 0)))
          st.center_id).getD (0, 0)).1)
        (py_int ((alookup (moved_positions st (st.path.getD st.step_index (0, 0)))
          st.center_id).getD (0, 0)).2)
        c hobs hnb' (box_offsets safety_margin)]
  · exact ⟨by decide, by with_unfolding_all decide⟩

theorem s2_sign_nonpos (p q : ℤ) (hp : p ≤ 0) (hq : q ≤ 0) : s2_sign p q ≠ 1 := by
  unfold s2_sign
  split_ifs with h1 h2 h3 h4 <;> try omega
  all_goals (exfalso; nlinarith [sq_nonneg p, sq_nonneg q])

/-- Costs are nonnegative, so the strict comparison against cost `0` always
fails (this is what keeps `start`'s entries in `came_from` / `cost_so_far`
from ever being overwritten). -/
theorem cost_lt_zero (x : Cost) : cost_lt x (0, 0) = false := by
  rcases x with ⟨a, b⟩
  simp only [cost_lt, decide_eq_false_iff_not]
  exact s2_sign_nonpos _ _ (by omega) (by omega)

-- Basic lemmas about the association-list and frontier operations.

theorem alookup_cons_self {α β : Type} [DecidableEq α] (l : List (α × β))
    (k : α) (v : β) : alookup ((k, v) :: l) k = some v := by
  simp [alookup]

theorem alookup_cons_ne {α β : Type} [DecidableEq α] (l : List (α × β))
    (k k' : α) (v : β) (h : k' ≠ k) : alookup ((k', v) :: l) k = alookup l k := by
  simp [alookup, h]

theorem alookup_cons_isSome {α β : Type} [DecidableEq α] (l : List (α × β))
    (k k' : α) (v : β) (h : (alookup l k).isSome = true) :
    (alookup ((k', v) :: l) k).isSome = true := by
  by_cases hk : k' = k
  · subst hk
    simp [alookup]
  · rw [alookup_cons_ne l k k' v hk]
    exact h

theorem erase_first_subset {α : Type} [DecidableEq α] (l : List α) (a x : α)
    (h : x ∈ erase_first l a) : x ∈ l := by
  induction l with
  | nil => simpa [erase_first] using h
  | cons hd t ih =>
    rw [erase_first] at h
    by_cases hh : hd = a
    · rw [if_pos hh] at h
      exact List.mem_cons_of_mem hd h
    · rw [if_neg hh] at h
      rcases List.mem_cons.mp h with h1 | h1
      · exact h1 ▸ List.mem_cons_self hd t
      · exact List.mem_cons_of_mem hd (ih h1)

theorem mem_erase_first_of_ne {α : Type} [DecidableEq α] (l : List α) (a x : α)
    (hx : x ∈ l) (hne : x ≠ a) : x ∈ erase_first l a := by
  induction l with
  | nil => simpa using hx
  | cons hd t ih =>
    rw [erase_first]
    by_cases hh : hd = a
    · rw [if_pos hh]
      rcases List.mem_cons.mp hx with h1 | h1
      · exact absurd (h1.trans hh) hne
      · exact h1
    · rw [if_neg hh]
      rcases List.mem_cons.mp hx with h1 | h1
      · exact List.mem_cons.mpr (Or.inl h1)
      · exact List.mem_cons_of_mem hd (ih h1)

theorem list_min_mem {α : Type} (lt : α → α → Bool) (l : List α) (m : α)
    (h : list_min lt l = some m) : m ∈ l := by
  cases l with
  | nil => simp [list_min] at h
  | cons hd t =>
    rw [list_min, Option.some_inj] at h
    subst h
    have key : ∀ (t2 : List α) (acc : α),
        t2.foldl (fun acc x => if lt x acc then x else acc) acc = acc ∨
          t2.foldl (fun acc x => if lt x acc then x else acc) acc ∈ t2 := by
      intro t2
      induction t2 with
      | nil => intro acc; exact Or.inl rfl
      | cons h2 t2t ih2 =>
        intro acc
        rw [List.foldl_cons]
        rcases ih2 (if lt h2 acc then h2 else acc) with h3 | h3
        · rw [h3]
          by_cases h4 : lt h2 acc = true
          · rw [if_pos h4]
            exact Or.inr (List.mem_cons_self h2 t2t)
          · rw [if_neg h4]
            exact Or.inl rfl
        · exact Or.inr (List.mem_cons_of_mem h2 h3)
    rcases key t hd with h1 | h1
    · rw [h1]
      exact List.mem_cons_self hd t
    · exact List.mem_cons_of_mem hd h1

theorem pop_min_none (l : List (Pri × Cell)) : pop_min l = none ↔ l = [] := by
  cases l with
  | nil => simp [pop_min, list_min]
  | cons hd t => simp [pop_min, list_min]

theorem pop_min_some (l : List (Pri × Cell)) (e : Pri × Cell)
    (rest : List (Pri × Cell)) (h : pop_min l = some (e, rest)) :
    e ∈ l ∧ rest = erase_first l e := by
  unfold pop_min at h
  cases hm : list_min entry_lt l with
  | none =>
    rw [hm] at h
    simp at h
  | some m =>
    rw [hm] at h
    simp only [Option.some_inj, Prod.mk.injEq] at h
    exact ⟨h.1 ▸ list_min_mem entry_lt l m hm, h.1 ▸ h.2.symm⟩

theorem cons_state_inv (start grid : Cell) (offsets : List Q2)
    (expanded : List Cell) (current : Cell) (s : AState) (d : ℤ × ℤ)
    (hd : d ∈ directions) (hcur : cf_keyed s current)
    (hinv : InvCore start grid offsets expanded s)
    (hce : ClosedExcept grid offsets expanded s current)
    (n : Cell) (hn1 : n = (current.1 + d.1, current.2 + d.2))
    (hb : inBounds grid n = true)
    (hv : is_valid_position offsets expanded grid (cellQ n) = true)
    (hns : n ≠ start) (pri : Pri) (nc : Cost) :
    InvCore start grid offsets expanded
      { frontier := (pri, n) :: s.frontier,
        came_from := (n, some current) :: s.came_from,
        cost_so_far := (n, nc) :: s.cost_so_far } ∧
    ClosedExcept grid offsets expanded
      { frontier := (pri, n) :: s.frontier,
        came_from := (n, some current) :: s.came_from,
        cost_so_far := (n, nc) :: s.cost_so_far } current := by
  constructor
  · constructor
    · -- cf_start
      show alookup ((n, some current) :: s.came_from) start = some none
      rw [alookup_cons_ne s.came_from start n (some current) hns]
      exact hinv.cf_start
    · -- cf_step
      intro c p hcp
      by_cases hc : n = c
      · subst hc
        rw [alookup_cons_self] at hcp
        have hp : p = current := by
          simpa using hcp.symm
        subst hp
        refine ⟨alookup_cons_isSome s.came_from p n (some p) hcur, ?_, hb, hv⟩
        have : (n.1 - p.1, n.2 - p.2) = d := by
          rw [hn1]
          simp
        rw [this]
        exact hd
      · rw [alookup_cons_ne s.came_from c n (some current) hc] at hcp
        rcases hinv.cf_step c p hcp with ⟨h1, h2, h3, h4⟩
        exact ⟨alookup_cons_isSome s.came_from p n (some current) h1, h2, h3, h4⟩
    · -- cf_none
      intro c q hcq hq
      by_cases hc : n = c
      · subst hc
        rw [alookup_cons_self] at hcq
        rw [hq] at hcq
        simp at hcq
      · rw [alookup_cons_ne s.came_from c n (some current) hc] at hcq
        exact hinv.cf_none c q hcq hq
    · -- cost_keys
      intro c
      show (alookup ((n, nc) :: s.cost_so_far) c).isSome = true ↔
        (alookup ((n, some current) :: s.came_from) c).isSome = true
      by_cases hc : n = c
      · subst hc
        rw [alookup_cons_self, alookup_cons_self]
        simp
      · rw [alookup_cons_ne s.cost_so_far c n nc hc,
          alookup_cons_ne s.came_from c n (some current) hc]
        exact hinv.cost_keys c
    · -- cost_start
      show alookup ((n, nc) :: s.cost_so_far) start = some (0, 0)
      rw [alookup_cons_ne s.cost_so_far start n nc hns]
      exact hinv.cost_start
    · -- front_keys
      intro e he
      rcases List.mem_cons.mp he with h1 | h1
      · show (alookup ((n, some current) :: s.came_from) e.2).isSome = true
        rw [h1]
        rw [alookup_cons_self]
        rfl
      · exact alookup_cons_isSome s.came_from e.2 n (some current)
          (hinv.front_keys e h1)
    · -- reach
      intro c hc
      by_cases hcn : n = c
      · subst hcn
        rw [hn1]
        exact Reach.step current d (hinv.reach current hcur) hd
          (hn1 ▸ hb) (hn1 ▸ hv)
      · have h2 : (alookup ((n, some current) :: s.came_from) c).isSome = true := hc
        rw [alookup_cons_ne s.came_from c n (some current) hcn] at h2
        exact hinv.reach c h2
  · -- ClosedExcept
    intro c hc hcc
    by_cases hcn : n = c
    · subst hcn
      left
      exact ⟨(pri, n), List.mem_cons_self _ _, rfl⟩
    · have h2 : (alookup ((n, some current) :: s.came_from) c).isSome = true := hc
      rw [alookup_cons_ne s.came_from c n (some current) hcn] at h2
      rcases hce c h2 hcc with h1 | h1
      · left
        rcases h1 with ⟨e, he, he2⟩
        exact ⟨e, List.mem_cons_of_mem _ he, he2⟩
      · right
        intro d2 hd2 hb2 hv2
        exact alookup_cons_isSome s.came_from _ n (some current)
          (h1 d2 hd2 hb2 hv2)

theorem relax_step_all (start grid : Cell) (offsets : List Q2)
    (expanded : List Cell) (goal current : Cell) (ccost : Cost) (s : AState)
    (d : ℤ × ℤ) (hd : d ∈ directions) (hcur : cf_keyed s current)
    (hinv : InvCore start grid offsets expanded s)
    (hce : ClosedExcept grid offsets expanded s current) :
    InvCore start grid offsets expanded
      (relax goal grid offsets expanded current ccost s d) ∧
    ClosedExcept grid offsets expanded
      (relax goal grid offsets expanded current ccost s d) current ∧
    (∀ c, cf_keyed s c →
      cf_keyed (relax goal grid offsets expanded current ccost s d) c) ∧
    (∀ e, e ∈ s.frontier →
      e ∈ (relax goal grid offsets expanded current ccost s d).frontier) ∧
    (inBounds grid (current.1 + d.1, current.2 + d.2) = true →
      is_valid_position offsets expanded grid
        (cellQ (current.1 + d.1, current.2 + d.2)) = true →
      cf_keyed (relax goal grid offsets expanded current ccost s d)
        (current.1 + d.1, current.2 + d.2)) := by
  unfold relax
  by_cases hb : inBounds grid (current.1 + d.1, current.2 + d.2) = true
  case neg =>
    rw [if_neg hb]
    exact ⟨hinv, hce, fun c hc => hc, fun e he => he,
      fun hb2 _ => absurd hb2 hb⟩
  case pos =>
  rw [if_pos hb]
  by_cases hv : is_valid_position offsets expanded grid
      (cellQ (current.1 + d.1, current.2 + d.2)) = true
  case neg =>
    rw [if_neg hv]
    exact ⟨hinv, hce, fun c hc => hc, fun e he => he,
      fun _ hv2 => absurd hv2 hv⟩
  case pos =>
  rw [if_pos hv]
  dsimp only
  rcases hold : alookup s.cost_so_far (current.1 + d.1, current.2 + d.2)
    with _ | old
  case none =>
    rw [if_pos rfl]
    have hns : (current.1 + d.1, current.2 + d.2) ≠ start := by
      intro hcon
      rw [hcon, hinv.cost_start] at hold
      exact absurd hold (by simp)
    have key := cons_state_inv start grid offsets expanded current s d hd hcur
      hinv hce (current.1 + d.1, current.2 + d.2) rfl hb hv hns
      (cost_add ccost (move_cost d),
        heuristic_sq goal (current.1 + d.1, current.2 + d.2))
      (cost_add ccost (move_cost d))
    refine ⟨key.1, key.2, ?_, ?_, ?_⟩
    · intro c hc
      exact alookup_cons_isSome s.came_from c _ (some current) hc
    · intro e he
      exact List.mem_cons_of_mem _ he
    · intro _ _
      show (alookup ((_, some current) :: s.came_from) _).isSome = true
      rw [alookup_cons_self]
      rfl
  case some =>
    by_cases hlt : cost_lt (cost_add ccost (move_cost d)) old = true
    case neg =>
      rw [if_neg hlt]
      refine ⟨hinv, hce, fun c hc => hc, fun e he => he, fun _ _ => ?_⟩
      rw [← hinv.cost_keys (current.1 + d.1, current.2 + d.2), hold]
      rfl
    case pos =>
      rw [if_pos hlt]
      have hns : (current.1 + d.1, current.2 + d.2) ≠ start := by
        intro hcon
        rw [hcon, hinv.cost_start] at hold
        have hz : old = ((0 : ℕ), (0 : ℕ)) := by
          simpa using hold.symm
        rw [hz, cost_lt_zero] at hlt
        exact absurd hlt (by simp)
      have key := cons_state_inv start grid offsets expanded current s d hd hcur
        hinv hce (current.1 + d.1, current.2 + d.2) rfl hb hv hns
        (cost_add ccost (move_cost d),
          heuristic_sq goal (current.1 + d.1, current.2 + d.2))
        (cost_add ccost (move_cost d))
      refine ⟨key.1, key.2, ?_, ?_, ?_⟩
      · intro c hc
        exact alookup_cons_isSome s.came_from c _ (some current) hc
      · intro e he
        exact List.mem_cons_of_mem _ he
      · intro _ _
        show (alookup ((_, some current) :: s.came_from) _).isSome = true
        rw [alookup_cons_self]
        rfl

theorem relax_fold_all (start grid : Cell) (offsets : List Q2)
    (expanded : List Cell) (goal current : Cell) (ccost : Cost) :
    ∀ (ds : List (ℤ × ℤ)), (∀ d, d ∈ ds → d ∈ directions) →
    ∀ (s : AState), cf_keyed s current →
    InvCore start grid offsets expanded s →
    ClosedExcept grid offsets expanded s current →
    InvCore start grid offsets expanded
      (ds.foldl (relax goal grid offsets expanded current ccost) s) ∧
    ClosedExcept grid offsets expanded
      (ds.foldl (relax goal grid offsets expanded current ccost) s) current ∧
    (∀ c, cf_keyed s c →
      cf_keyed (ds.foldl (relax goal grid offsets expanded current ccost) s) c) ∧
    (∀ e, e ∈ s.frontier →
      e ∈ (ds.foldl (relax goal grid offsets expanded current ccost) s).frontier) ∧
    (∀ d, d ∈ ds → inBounds grid (current.1 + d.1, current.2 + d.2) = true →
      is_valid_position offsets expanded grid
        (cellQ (current.1 + d.1, current.2 + d.2)) = true →
      cf_keyed (ds.foldl (relax goal grid offsets expanded current ccost) s)
        (current.1 + d.1, current.2 + d.2)) := by
  intro ds
  induction ds with
  | nil =>
    intro _ s hcur hinv hce
    exact ⟨hinv, hce, fun c hc => hc, fun e he => he, fun d hd => absurd hd
      (List.not_mem_nil d)⟩
  | cons d rest ih =>
    intro hds s hcur hinv hce
    have hd : d ∈ directions := hds d (List.mem_cons_self d rest)
    have step := relax_step_all start grid offsets expanded goal current ccost
      s d hd hcur hinv hce
    rw [List.foldl_cons]
    have hcur2 : cf_keyed (relax goal grid offsets expanded current ccost s d)
        current := step.2.2.1 current hcur
    have rest_all := ih (fun d2 hd2 => hds d2 (List.mem_cons_of_mem d hd2))
      (relax goal grid offsets expanded current ccost s d) hcur2 step.1 step.2.1
    refine ⟨rest_all.1, rest_all.2.1, ?_, ?_, ?_⟩
    · intro c hc
      exact rest_all.2.2.1 c (step.2.2.1 c hc)
    · intro e he
      exact rest_all.2.2.2.1 e (step.2.2.2.1 e he)
    · intro d2 hd2 hb2 hv2
      rcases List.mem_cons.mp hd2 with h1 | h1
      · subst h1
        exact rest_all.2.2.1 _ (step.2.2.2.2 hb2 hv2)
      · exact rest_all.2.2.2.2 d2 h1 hb2 hv2

theorem inv_restrict_frontier (start grid : Cell) (offsets : List Q2)
    (expanded : List Cell) (s : AState) (rest : List (Pri × Cell))
    (hsub : ∀ e, e ∈ rest → e ∈ s.frontier)
    (hinv : InvCore start grid offsets expanded s) :
    InvCore start grid offsets expanded { s with frontier := rest } := by
  constructor
  · exact hinv.cf_start
  · exact hinv.cf_step
  · exact hinv.cf_none
  · exact hinv.cost_keys
  · exact hinv.cost_start
  · intro e he
    exact hinv.front_keys e (hsub e he)
  · exact hinv.reach

theorem a_star_loop_post (start goal grid : Cell) (offsets : List Q2)
    (expanded : List Cell) :
    ∀ (fuel : ℕ) (s s' : AState),
      a_star_loop goal grid offsets expanded fuel s = some s' →
      InvCore start grid offsets expanded s →
      Closed grid offsets expanded s →
      InvCore start grid offsets expanded s' ∧
      (cf_keyed s' goal ∨
        (s'.frontier = [] ∧ Closed grid offsets expanded s')) := by
  intro fuel
  induction fuel with
  | zero =>
    intro s s' h hinv hclosed
    rw [a_star_loop] at h
    by_cases he : s.frontier.isEmpty = true
    · rw [if_pos he, Option.some_inj] at h
      subst h
      exact ⟨hinv, Or.inr ⟨List.isEmpty_iff.mp he, hclosed⟩⟩
    · rw [if_neg he] at h
      simp at h
  | succ fuel ih =>
    intro s s' h hinv hclosed
    rw [a_star_loop] at h
    rcases hp : pop_min s.frontier with _ | er
    · rw [hp] at h
      simp only [Option.some_inj] at h
      subst h
      have hemp : s.frontier = [] := (pop_min_none s.frontier).mp hp
      exact ⟨hinv, Or.inr ⟨hemp, hclosed⟩⟩
    · rcases er with ⟨e, rest⟩
      rw [hp] at h
      dsimp only at h
      rcases pop_min_some s.frontier e rest hp with ⟨hemem, hrest⟩
      have hsub : ∀ f, f ∈ rest → f ∈ s.frontier := by
        intro f hf
        rw [hrest] at hf
        exact erase_first_subset s.frontier e f hf
      have hekey : cf_keyed s e.2 := hinv.front_keys e hemem
      have hinv1 : InvCore start grid offsets expanded
          { s with frontier := rest } :=
        inv_restrict_frontier start grid offsets expanded s rest hsub hinv
      by_cases hgoal : e.2 = goal
      · rw [if_pos hgoal, Option.some_inj] at h
        subst h
        refine ⟨hinv1, Or.inl ?_⟩
        show (alookup s.came_from goal).isSome = true
        rw [← hgoal]
        exact hekey
      · rw [if_neg hgoal] at h
        have hce1 : ClosedExcept grid offsets expanded
            { s with frontier := rest } e.2 := by
          intro c hc hcc
          rcases hclosed c hc with h1 | h1
          · left
            rcases h1 with ⟨f, hf, hf2⟩
            have hfe : f ≠ e := by
              intro hcon
              exact hcc (by rw [← hf2, hcon])
            refine ⟨f, ?_, hf2⟩
            show f ∈ rest
            rw [hrest]
            exact mem_erase_first_of_ne s.frontier e f hf hfe
          · exact Or.inr h1
        have hcur1 : cf_keyed { s with frontier := rest } e.2 := hekey
        have fold := relax_fold_all start grid offsets expanded goal e.2
          ((alookup s.cost_so_far e.2).getD (0, 0)) directions
          (fun d hd => hd) { s with frontier := rest } hcur1 hinv1 hce1
        have hclosed2 : Closed grid offsets expanded
            (directions.foldl
              (relax goal grid offsets expanded e.2
                ((alookup s.cost_so_far e.2).getD (0, 0)))
              { s with frontier := rest }) := by
          intro c hc
          by_cases hcc : c = e.2
          · subst hcc
            right
            intro d hd hb2 hv2
            exact fold.2.2.2.2 d hd hb2 hv2
          · exact fold.2.1 c hc hcc
        exact ih _ s' h fold.1 hclosed2

theorem walk_none (cf : List (Cell × Option Cell)) (fuel : ℕ)
    (acc : List Cell) : walk cf fuel none acc = some acc := by
  cases fuel <;> rfl

theorem walk_not_keyed (cf : List (Cell × Option Cell)) (fuel : ℕ) (c : Cell)
    (acc : List Cell) (h : alookup cf c = none) :
    walk cf fuel (some c) acc = some acc := by
  cases fuel <;> simp [walk, h]

theorem walk_main (cf : List (Cell × Option Cell)) (start grid : Cell)
    (offsets : List Q2) (expanded : List Cell)
    (hstep : ∀ c p, alookup cf c = some (some p) →
      (alookup cf p).isSome = true ∧ (c.1 - p.1, c.2 - p.2) ∈ directions ∧
      inBounds grid c = true ∧
      is_valid_position offsets expanded grid (cellQ c) = true)
    (hnone : ∀ c q, alookup cf c = some q → q = none → c = start) :
    ∀ (fuel : ℕ) (c : Cell) (acc p : List Cell),
      walk cf fuel (some c) acc = some p →
      (alookup cf c).isSome = true →
      ∃ l, p = l ++ acc ∧ l ≠ [] ∧ l.head? = some start ∧
        l.getLast? = some c ∧
        List.Chain' (fun a b => (b.1 - a.1, b.2 - a.2) ∈ directions) l ∧
        (∀ x, x ∈ l.tail → inBounds grid x = true ∧
          is_valid_position offsets expanded grid (cellQ x) = true) := by
  intro fuel
  induction fuel with
  | zero =>
    intro c acc p h hc
    rw [walk] at h
    rcases hl : alookup cf c with _ | q
    · rw [hl] at hc
      simp at hc
    · rw [hl] at h
      simp at h
  | succ fuel ih =>
    intro c acc p h hc
    rw [walk] at h
    rcases hl : alookup cf c with _ | q
    · rw [hl] at hc
      simp at hc
    · rw [hl] at h
      dsimp only at h
      rcases q with _ | parent
      · have hcs : c = start := hnone c none hl rfl
        rw [walk_none, Option.some_inj] at h
        refine ⟨[c], by rw [← h]; rfl, by simp, by rw [hcs]; rfl, rfl, ?_, ?_⟩
        · exact List.chain'_singleton c
        · intro x hx
          simp at hx
      · rcases hstep c parent hl with ⟨hpk, hdir, hbc, hvc⟩
        rcases ih parent (c :: acc) p h hpk with
          ⟨l2, hp, hne, hhead, hlast, hchain, htail⟩
        rcases l2 with _ | ⟨a, t⟩
        · exact absurd rfl hne
        refine ⟨(a :: t) ++ [c], ?_, by simp, ?_, ?_, ?_, ?_⟩
        · rw [hp]
          simp
        · simpa using hhead
        · rw [List.getLast?_concat]
        · rw [List.chain'_append]
          refine ⟨hchain, List.chain'_singleton c, ?_⟩
          intro x hx y hy
          simp at hy
          subst hy
          rw [hlast, Option.mem_def, Option.some_inj] at hx
          subst hx
          exact hdir
        · intro x hx
          rw [show ((a :: t) ++ [c]).tail = t ++ [c] from rfl] at hx
          rcases List.mem_append.mp hx with h1 | h1
          · exact htail x h1
          · simp at h1
            subst h1
            exact ⟨hbc, hvc⟩

theorem init_inv (start : Cell) (grid : Cell) (offsets : List Q2)
    (expanded : List Cell) :
    InvCore start grid offsets expanded
      { frontier := [(((0, 0), 0), start)],
        came_from := [(start, none)],
        cost_so_far := [(start, (0, 0))] } ∧
    Closed grid offsets expanded
      { frontier := [(((0, 0), 0), start)],
        came_from := [(start, none)],
        cost_so_far := [(start, (0, 0))] } := by
  have hkey : ∀ c : Cell,
      (alookup [(start, (none : Option Cell))] c).isSome = true → c = start := by
    intro c hc
    by_cases h : start = c
    · exact h.symm
    · rw [show alookup [(start, (none : Option Cell))] c = none from by
        simp [alookup, h]] at hc
      simp at hc
  constructor
  · constructor
    · simp [alookup]
    · intro c p hcp
      have hc : c = start := hkey c (by rw [hcp]; rfl)
      subst hc
      rw [show alookup [(c, (none : Option Cell))] c = some none from by
        simp [alookup]] at hcp
      simp at hcp
    · intro c q hcq _
      exact hkey c (by rw [hcq]; rfl)
    · intro c
      unfold cf_keyed
      dsimp only
      by_cases h : start = c
      · subst h
        simp [alookup]
      · simp [alookup, h]
    · simp [alookup]
    · intro e he
      simp at he
      rw [he]
      show (alookup [(start, (none : Option Cell))] start).isSome = true
      simp [alookup]
    · intro c hc
      have := hkey c hc
      subst this
      exact Reach.refl
  · intro c hc
    have := hkey c hc
    subst this
    left
    exact ⟨(((0, 0), 0), c), by simp, rfl⟩

theorem reach_keyed_of_closed (start grid : Cell) (offsets : List Q2)
    (expanded : List Cell) (s : AState)
    (hclosed : Closed grid offsets expanded s) (hemp : s.frontier = [])
    (hstart : cf_keyed s start) :
    ∀ c, Reach grid offsets expanded start c → cf_keyed s c := by
  intro c hr
  induction hr with
  | refl => exact hstart
  | step c d hr hd hb hv ih =>
    rcases hclosed c ih with h1 | h1
    · rcases h1 with ⟨e, he, _⟩
      rw [hemp] at he
      simp at he
    · exact h1 d hd hb hv

theorem a_star_main (fuel : ℕ) (start goal : Cell)
    (obstacles : List (Cell × ObstacleType)) (grid : Cell) (shape : Shape)
    (p : List Cell)
    (h : a_star fuel start goal obstacles grid shape = some p) :
    (p = [] ↔ ¬ Reach grid (relative_offsets shape)
        (expanded_after [] obstacles shape.type grid safety_margin)
        start goal) ∧
    (p ≠ [] → p.head? = some start ∧ p.getLast? = some goal) ∧
    List.Chain' (fun a b => (b.1 - a.1, b.2 - a.2) ∈ directions) p ∧
    (∀ x, x ∈ p.tail → inBounds grid x = true ∧
      is_valid_position (relative_offsets shape)
        (expanded_after [] obstacles shape.type grid safety_margin) grid
        (cellQ x) = true) := by
  unfold a_star at h
  dsimp only at h
  rcases hloop : a_star_loop goal grid (relative_offsets shape)
      (expanded_after [] obstacles shape.type grid safety_margin) fuel
      { frontier := [(((0, 0), 0), start)],
        came_from := [(start, none)],
        cost_so_far := [(start, (0, 0))] } with _ | s1
  · rw [hloop] at h
    simp at h
  · rw [hloop] at h
    dsimp only at h
    have hii := init_inv start grid (relative_offsets shape)
      (expanded_after [] obstacles shape.type grid safety_margin)
    have post := a_star_loop_post start goal grid (relative_offsets shape)
      (expanded_after [] obstacles shape.type grid safety_margin) fuel _ s1
      hloop hii.1 hii.2
    by_cases hk : cf_keyed s1 goal
    · rcases walk_main s1.came_from start grid (relative_offsets shape)
        (expanded_after [] obstacles shape.type grid safety_margin)
        post.1.cf_step post.1.cf_none fuel goal [] p h hk with
        ⟨l, hp, hne, hhead, hlast, hchain, htail⟩
      rw [List.append_nil] at hp
      subst hp
      have hreach := post.1.reach goal hk
      refine ⟨iff_of_false hne (fun hnr => hnr hreach), fun _ => ⟨hhead, hlast⟩,
        hchain, htail⟩
    · have hnone : alookup s1.came_from goal = none := by
        rcases hcase : alookup s1.came_from goal with _ | q
        · rfl
        · exact absurd (by unfold cf_keyed; rw [hcase]; rfl) hk
      rw [walk_not_keyed s1.came_from fuel goal [] hnone, Option.some_inj] at h
      subst h
      have hnreach : ¬ Reach grid (relative_offsets shape)
          (expanded_after [] obstacles shape.type grid safety_margin)
          start goal := by
        intro hr
        rcases post.2 with h1 | h1
        · exact hk h1
        · exact hk (reach_keyed_of_closed start grid _ _ s1 h1.2 h1.1
            (by unfold cf_keyed; rw [post.1.cf_start]; rfl) goal hr)
      exact ⟨iff_of_true rfl hnreach, fun hc => absurd rfl hc,
        List.chain'_nil, fun x hx => absurd hx (List.not_mem_nil x)⟩

theorem a_star_self (fuel : ℕ) (start : Cell)
    (obstacles : List (Cell × ObstacleType)) (grid : Cell) (shape : Shape) :
    a_star (fuel + 1) start start obstacles grid shape = some [start] := by
  have hpop : pop_min [((((0 : ℕ), (0 : ℕ)), (0 : ℕ)), start)] =
      some ((((0, 0), 0), start), []) := by
    unfold pop_min list_min
    simp [erase_first]
  have hloop : a_star_loop start grid (relative_offsets shape)
      (expanded_after [] obstacles shape.type grid safety_margin) (fuel + 1)
      { frontier := [(((0, 0), 0), start)],
        came_from := [(start, none)],
        cost_so_far := [(start, (0, 0))] } =
      some { frontier := [],
             came_from := [(start, none)],
             cost_so_far := [(start, (0, 0))] } := by
    rw [a_star_loop, hpop]
    dsimp only
    rw [if_pos rfl]
  have hwalk : walk [(start, (none : Option Cell))] (fuel + 1) (some start) [] =
      some [start] := by
    rw [walk]
    rw [show alookup [(start, (none : Option Cell))] start = some none from by
      simp [alookup]]
    dsimp only
    exact walk_none _ fuel [start]
  unfold a_star
  dsimp only
  rw [hloop]
  dsimp only
  exact hwalk

/-- C2 counterexample: `a_star(s, s)` does not return the empty path — it
returns the one-cell path `[s]`, whose first (and only) cell is `start`
itself; so the path neither excludes `start` nor is empty for `start = goal`. -/
theorem a_star_self_not_empty :
    a_star 5 (2, 2) (2, 2) [] (5, 5) get_dog_shape = some [(2, 2)] ∧
    ([((2 : ℤ), (2 : ℤ))] = ([] : List Cell) → False) := by
  constructor
  · exact a_star_self 4 (2, 2) [] (5, 5) get_dog_shape
  · intro h
    simp at h

/-- C2 amended: the path returned by `a_star` includes `start` as its first
cell and ends at `goal` when `goal` is reachable; it is empty exactly when
`goal` is unreachable; and `a_star(s, s)` returns the one-cell path `[s]`
(reachability trivially holds there), never the empty "unreachable" result. -/
theorem a_star_path_endpoints (start goal : Cell)
    (obstacles : List (Cell × ObstacleType)) (grid : Cell) (shape : Shape) :
    (∀ fuel p, a_star fuel start goal obstacles grid shape = some p →
      ((p = [] ↔ ¬ Reach grid (relative_offsets shape)
          (expanded_after [] obstacles shape.type grid safety_margin)
          start goal) ∧
        (p ≠ [] → p.head? = some start ∧ p.getLast? = some goal))) ∧
    (∀ fuel, a_star (fuel + 1) start start obstacles grid shape =
      some [start]) := by
  constructor
  · intro fuel p h
    have main := a_star_main fuel start goal obstacles grid shape p h
    exact ⟨main.1, main.2.1⟩
  · intro fuel
    exact a_star_self fuel start obstacles grid shape

theorem a_star_path_endpoints_witness :
    ([((1 : ℤ), (1 : ℤ)), ((1 : ℤ), (2 : ℤ))] = ([] : List Cell) ↔
      ¬ Reach (4, 4) (relative_offsets get_dog_shape)
        (expanded_after [] [] ShapeType.dog (4, 4) safety_margin)
        (1, 1) (1, 2)) ∧
    ([((1 : ℤ), (1 : ℤ)), ((1 : ℤ), (2 : ℤ))] ≠ ([] : List Cell) →
      [((1 : ℤ), (1 : ℤ)), ((1 : ℤ), (2 : ℤ))].head? = some (1, 1) ∧
      [((1 : ℤ), (1 : ℤ)), ((1 : ℤ), (2 : ℤ))].getLast? = some (1, 2)) :=
  (a_star_path_endpoints (1, 1) (1, 2) [] (4, 4) get_dog_shape).1 50
    [(1, 1), (1, 2)] (by with_unfolding_all rfl)

/-- C3 counterexample: on the obstacle-free 4x4 grid with the dog topology
active, both `(1, 1)` and `(0, 0)` are in bounds, yet `a_star` returns the
empty path (the full-body footprint check makes every center near the border
invalid, so the goal is never reached); the path's Euclidean-weighted length
`0` differs from the 8-connected shortest-path distance `sqrt 2`. -/
theorem a_star_not_distance_exact :
    a_star 200 (1, 1) (0, 0) [] (4, 4) get_dog_shape = some [] ∧
    inBounds (4, 4) (1, 1) = true ∧
    inBounds (4, 4) (0, 0) = true ∧
    path_cost [] = (0, 0) ∧
    spec_dist8 (1, 1) (0, 0) = (0, 1) ∧
    path_cost [] ≠ spec_dist8 (1, 1) (0, 0) := by
  refine ⟨by with_unfolding_all rfl, rfl, rfl, rfl, rfl, by decide⟩

/-- C3 amended: every consecutive pair of cells in any path returned by
`a_star` (obstacles or not) differs by a single unit or diagonal move; the
length-equals-8-connected-distance part of the claim fails on obstacle-free
grids because border goals can be invalid as full-body centers (see the
counterexample). -/
theorem a_star_king_moves (fuel : ℕ) (start goal : Cell)
    (obstacles : List (Cell × ObstacleType)) (grid : Cell) (shape : Shape)
    (p : List Cell)
    (h : a_star fuel start goal obstacles grid shape = some p) :
    List.Chain' (fun a b => (b.1 - a.1, b.2 - a.2) ∈ directions) p :=
  (a_star_main fuel start goal obstacles grid shape p h).2.2.1

theorem a_star_king_moves_witness :
    List.Chain' (fun a b : Cell => (b.1 - a.1, b.2 - a.2) ∈ directions)
      [((1 : ℤ), (2 : ℤ)), ((1 : ℤ), (1 : ℤ))] :=
  a_star_king_moves 50 (1, 2) (1, 1) [] (4, 4) get_dog_shape
    [(1, 2), (1, 1)] (by with_unfolding_all rfl)

/-- C7 counterexample: `a_star` performs no bounds check on the request. A
goal far outside the 4x4 grid is not rejected and raises no error — the call
returns the ordinary empty path, exactly the same value an in-bounds but
unreachable goal produces, so out-of-bounds requests are not signalled
distinctly from unreachability. -/
theorem a_star_no_oob_rejection :
    a_star 200 (1, 1) (7, 7) [] (4, 4) get_dog_shape = some [] ∧
    inBounds (4, 4) (7, 7) = false ∧
    a_star 200 (1, 1) (3, 3) [] (4, 4) get_dog_shape = some [] ∧
    inBounds (4, 4) (3, 3) = true := by
  exact ⟨by with_unfolding_all rfl, rfl, by with_unfolding_all rfl, rfl⟩

/-- C7 amended: no out-of-bounds validation exists. An out-of-bounds goal
(distinct from the start) is simply never discovered, so the search runs and
returns the plain empty path — indistinguishable from an unreachable
in-bounds goal. An out-of-bounds start is not rejected either: the search
expands from it and can return a non-empty path (second conjunct: the line
shape starting at `(13, 2)` outside the 13-wide grid). -/
theorem a_star_oob_behavior :
    (∀ fuel start goal obstacles grid shape p,
      a_star fuel start goal obstacles grid shape = some p →
      inBounds grid goal = false → goal ≠ start → p = []) ∧
    (inBounds (13, 6) (13, 2) = false ∧
      a_star 50 (13, 2) (11, 2) [] (13, 6) get_line_shape =
        some [(13, 2), (12, 2), (11, 2)]) := by
  constructor
  · intro fuel start goal obstacles grid shape p h hoob hne
    have main := a_star_main fuel start goal obstacles grid shape p h
    rw [main.1]
    intro hr
    cases hr with
    | refl => exact hne rfl
    | step c d hr2 hd hb hv => rw [hb] at hoob; exact absurd hoob (by simp)
  · exact ⟨rfl, by with_unfolding_all rfl⟩

theorem a_star_oob_behavior_witness :
    ([] : List Cell) = [] :=
  a_star_oob_behavior.1 200 (1, 1) (7, 7) [] (4, 4) get_dog_shape []
    (by with_unfolding_all rfl) rfl (by decide)

/-- C10. Every cell of a returned path except the first is inside grid
bounds and passes the full-footprint validity check against the inflated set
computed during that call; the start cell itself is never validated, so the
search proceeds even when the start's footprint is invalid and can return a
non-empty path (second conjunct: start `(4, 2)` overlaps the inflated box of
the High Wall at `(1, 1)` yet a path to `(5, 4)` is found). -/
theorem a_star_validates_tail :
    (∀ fuel start goal obstacles grid shape p,
      a_star fuel start goal obstacles grid shape = some p →
      (p ≠ [] → p.head? = some start) ∧
      (∀ x, x ∈ p.tail → inBounds grid x = true ∧
        is_valid_position (relative_offsets shape)
          (expanded_after [] obstacles shape.type grid safety_margin) grid
          (cellQ x) = true)) ∧
    (is_valid_position (relative_offsets get_dog_shape)
        (expanded_after [] [((1, 1), ObstacleType.highWall)] ShapeType.dog
          (7, 7) safety_margin) (7, 7) (cellQ (4, 2)) = false ∧
      a_star 300 (4, 2) (5, 4) [((1, 1), ObstacleType.highWall)] (7, 7)
        get_dog_shape = some [(4, 2), (5, 3), (5, 4)] ∧
      ([((4 : ℤ), (2 : ℤ)), ((5 : ℤ), (3 : ℤ)), ((5 : ℤ), (4 : ℤ))] ≠
        ([] : List Cell))) := by
  constructor
  · intro fuel start goal obstacles grid shape p h
    have main := a_star_main fuel start goal obstacles grid shape p h
    exact ⟨fun hne => (main.2.1 hne).1, main.2.2.2⟩
  · refine ⟨by with_unfolding_all rfl, by with_unfolding_all rfl, ?_⟩
    simp

theorem a_star_validates_tail_witness :
    (([((4 : ℤ), (2 : ℤ)), ((5 : ℤ), (3 : ℤ)), ((5 : ℤ), (4 : ℤ))] ≠
        ([] : List Cell) →
      [((4 : ℤ), (2 : ℤ)), ((5 : ℤ), (3 : ℤ)), ((5 : ℤ), (4 : ℤ))].head? =
        some (4, 2)) ∧
    (∀ x, x ∈ [((4 : ℤ), (2 : ℤ)), ((5 : ℤ), (3 : ℤ)),
        ((5 : ℤ), (4 : ℤ))].tail → inBounds (7, 7) x = true ∧
      is_valid_position (relative_offsets get_dog_shape)
        (expanded_after [] [((1, 1), ObstacleType.highWall)] ShapeType.dog
          (7, 7) safety_margin) (7, 7) (cellQ x) = true)) :=
  (a_star_validates_tail.1 300 (4, 2) (5, 4) [((1, 1), ObstacleType.highWall)]
    (7, 7) get_dog_shape [(4, 2), (5, 3), (5, 4)] (by with_unfolding_all rfl))

theorem update_positions_switch_spec_witness :
    update_positions sinq0 (demo_state ObstacleType.tunnelWall ShapeType.dog) =
      (let next := (demo_state ObstacleType.tunnelWall ShapeType.dog).path.getD
        (demo_state ObstacleType.tunnelWall ShapeType.dog).step_index (0, 0)
       let moved : SysState :=
         { demo_state ObstacleType.tunnelWall ShapeType.dog with
           step_index :=
             (demo_state ObstacleType.tunnelWall ShapeType.dog).step_index + 1,
           positions :=
             moved_positions (demo_state ObstacleType.tunnelWall ShapeType.dog)
               next }
       match first_switch_hit
           (demo_state ObstacleType.tunnelWall ShapeType.dog).obstacles
           (demo_state ObstacleType.tunnelWall ShapeType.dog).current_shape_type
           next safety_margin with
       | none => moved
       | some k => switch_shape moved (shape_of_kind sinq0 k)) :=
  update_positions_switch_spec sinq0
    (demo_state ObstacleType.tunnelWall ShapeType.dog)
    (by decide) (by decide) (by decide)

theorem switch_requires_blocking_witness :
    (update_positions sinq0
      (demo_state ObstacleType.lowWall ShapeType.dog)).current_shape_type =
      (demo_state ObstacleType.lowWall ShapeType.dog).current_shape_type :=
  switch_requires_blocking.1 sinq0
    (demo_state ObstacleType.lowWall ShapeType.dog) ObstacleType.lowWall
    (by
      intro cell t h
      rw [show (demo_state ObstacleType.lowWall ShapeType.dog).obstacles =
        [(((5 : ℤ), (5 : ℤ)), ObstacleType.lowWall)] from rfl] at h
      rw [alookup] at h
      split at h
      · exact (Option.some_inj.mp h).symm
      · rw [alookup] at h
        exact absurd h (by simp))
    (by decide)
